import Mathlib

/-!
Shallow embedding of the memorier media pipeline (src/memorier.py).

A `MediaPath` models one entry of `founded_paths`: its `stem` is
`os.path.splitext(path)[0]` and its `ext` is `os.path.splitext(path)[1]`.
Extension classification mirrors `image_exts` / `video_exts` and the
`.lower()` call applied before every membership test.

External effects are modelled by oracles:
- `sizeOf : MediaPath → Option ℕ` models `os.path.getsize` (`none` = the
  call raised, i.e. the size cannot be read);
- `del : MediaPath → Bool` models whether `os.remove` succeeds;
- `ok : MediaPath → Bool` models whether a conversion attempt (the body of
  the `try` block in `convertTypes`) completes successfully;
- `oracle : MediaPath → Option Hash` models `imagehash.phash(Image.open p)`
  (`none` = `Image.open`/hashing raised);
- `dateOf : MediaPath → ℕ × ℕ` models the (year, month) of the file's
  modification time as read by `os.stat` in `createFolders`.
-/

structure MediaPath where
  stem : String
  ext : String
deriving DecidableEq

/-- ASCII lowercasing of one character, as Python's `str.lower` acts on the
extension strings the pipeline compares (all ASCII). -/
def lowerChar (c : Char) : Char :=
  if 65 ≤ c.toNat ∧ c.toNat ≤ 90 then Char.ofNat (c.toNat + 32) else c

/-- The `.lower()` call applied to an extension. -/
def lowerStr (s : String) : String := ⟨s.data.map lowerChar⟩

def extLower (p : MediaPath) : String := lowerStr p.ext

def imageExts : List String := [".jpg", ".jpeg", ".png", ".heic", ".webp"]

def videoExts : List String := [".mp4", ".avi", ".mkv", ".mov", ".webm"]

def isImageExt (p : MediaPath) : Bool := decide (extLower p ∈ imageExts)

def isVideoExt (p : MediaPath) : Bool := decide (extLower p ∈ videoExts)

def isValidExt (p : MediaPath) : Bool := isImageExt p || isVideoExt p

/-- `collectFiles`: walk entries with a valid extension are appended to
`founded_paths` in traversal order (src/memorier.py lines 107-117). -/
def collectFiles (walk : List MediaPath) : List MediaPath :=
  walk.filter (fun p => isValidExt p)

def defaultMaxImageBytes : ℕ := 20 * 1024 * 1024

def defaultMaxVideoBytes : ℕ := 1024 * 1024 * 1024

/-- The `should_remove` decision of `removeLargeFiles`
(src/memorier.py lines 82-93): unreadable size is always removed, images
strictly over `max_image_bytes` and videos strictly over `max_video_bytes`
are removed. -/
def shouldRemoveLarge (sizeOf : MediaPath → Option ℕ) (maxI maxV : ℕ)
    (p : MediaPath) : Bool :=
  match sizeOf p with
  | none => true
  | some s =>
    if isImageExt p then decide (maxI < s)
    else if isVideoExt p then decide (maxV < s)
    else false

/-- One iteration of the `removeLargeFiles` loop body over the live list
(src/memorier.py lines 95-101): the record is removed from `founded_paths`
only when `os.remove` succeeded (`del p = true`); when `os.remove` raises
the failure is only printed and the list is left unchanged. -/
def removeLargeStep (sizeOf : MediaPath → Option ℕ) (del : MediaPath → Bool)
    (maxI maxV : ℕ) (st : List MediaPath) (p : MediaPath) : List MediaPath :=
  if shouldRemoveLarge sizeOf maxI maxV p && del p then st.erase p else st

/-- `removeLargeFiles` iterates over a snapshot (`self.founded_paths[:]`)
while mutating the live list (src/memorier.py lines 72-105). -/
def removeLargeFiles (sizeOf : MediaPath → Option ℕ) (del : MediaPath → Bool)
    (maxI maxV : ℕ) (ps : List MediaPath) : List MediaPath :=
  ps.foldl (removeLargeStep sizeOf del maxI maxV) ps

/-- Per-record outcome of `convertTypes` (src/memorier.py lines 123-185):
`.heic` without a HEIF decoder is skipped; `.heic`/`.webp` become `.png`
when the attempt succeeds; `.avi`/`.mkv`/`.mov`/`.webm` become `.mp4` when
ffmpeg succeeds; every failure path resets `new_path = file_path`. -/
def convertOne (heif : Bool) (ok : MediaPath → Bool) (p : MediaPath) :
    MediaPath :=
  if extLower p = ".heic" then
    if heif = false then p
    else if ok p then ⟨p.stem, ".png"⟩ else p
  else if extLower p = ".webp" then
    if ok p then ⟨p.stem, ".png"⟩ else p
  else if extLower p ∈ [".avi", ".mkv", ".mov", ".webm"] then
    if ok p then ⟨p.stem, ".mp4"⟩ else p
  else p

/-- `convertTypes` appends exactly one path per input record (the `finally`
block), so the stage is a map over `founded_paths`. -/
def convertTypes (heif : Bool) (ok : MediaPath → Bool)
    (ps : List MediaPath) : List MediaPath :=
  ps.map (convertOne heif ok)

/-- A perceptual fingerprint: the 2-dimensional boolean array wrapped by
`imagehash.ImageHash` (`phash` produces a square 8 by 8 array). -/
abbrev Hash : Type := List (List Bool)

/-- `h1 - h2` on `imagehash.ImageHash`: `count_nonzero(h1.hash != h2.hash)`,
the Hamming distance over aligned entries. -/
def hammingDistance (h1 h2 : Hash) : ℕ :=
  ((h1.zip h2).map
    (fun rr => ((rr.1.zip rr.2).filter (fun bb => decide (bb.1 ≠ bb.2))).length)).sum

/-- The similarity formula of src/memorier.py line 215:
`(1 - distance / len(hashes[paths[i]].hash) ** 2) * 100`, where
`len(h.hash)` is the number of rows of the hash array. -/
def similarity (h1 h2 : Hash) : ℚ :=
  (1 - (hammingDistance h1 h2 : ℚ) / ((List.length h1 : ℚ)) ^ 2) * 100

/-- Total number of bits of a fingerprint (the bit length of the spec's
"fixed-length bit vector"). -/
def bitLength (h : Hash) : ℕ := (h.map List.length).sum

/-- Modelled from the claim's words (C2): similarity computed as
`(1 - distance / bitLength ^ 2) * 100` with `bitLength` the fingerprint's
bit length. Stated for comparison with `similarity`, which is translated
from the source. -/
def claimSimilarity (h1 h2 : Hash) : ℚ :=
  (1 - (hammingDistance h1 h2 : ℚ) / ((bitLength h1 : ℚ)) ^ 2) * 100

/-- Concrete sample records and fingerprints used in closed statements. -/
def samplePhoto : MediaPath := ⟨"a", ".jpg"⟩

def sampleVideo : MediaPath := ⟨"v", ".mp4"⟩

def webpSample : MediaPath := ⟨"a", ".webp"⟩

def heicSample : MediaPath := ⟨"a", ".heic"⟩

def aviSample : MediaPath := ⟨"v", ".avi"⟩

def oversizedPhoto : MediaPath := ⟨"big", ".jpg"⟩

/-- An 8 by 8 fingerprint with every bit clear. -/
def flatHash : Hash := List.replicate 8 (List.replicate 8 false)

/-- An 8 by 8 fingerprint with every bit set. -/
def fullHash : Hash := List.replicate 8 (List.replicate 8 true)

/-- A 1 by 1 fingerprint. -/
def tinyHash : Hash := [[true]]

/-- Python dict insertion for `hashes[path] = ...`: a fresh key goes to the
back, an existing key keeps its position. -/
def dictInsert (ks : List MediaPath) (p : MediaPath) : List MediaPath :=
  if p ∈ ks then ks else ks ++ [p]

/-- Key order of the dict built by `getImageHashes`
(src/memorier.py lines 189-198): image-extension paths of `founded_paths`
in first-occurrence order. -/
def imageKeys (ps : List MediaPath) : List MediaPath :=
  ps.foldl (fun ks p => if isImageExt p then dictInsert ks p else ks) []

/-- Inner loop of `removeDuplicateImages` (src/memorier.py lines 211-219):
scan the suffix after position `i`, skip paths already in `seen`, and on a
similarity hit add the path to both `seen` and `deleted`. Returns the
updated `(seen, deleted)`. -/
def dedupInner (sim : MediaPath → MediaPath → ℚ) (thr : ℚ) (p : MediaPath) :
    List MediaPath → List MediaPath → List MediaPath →
      List MediaPath × List MediaPath
  | [], seen, del => (seen, del)
  | q :: qs, seen, del =>
    if q ∈ seen then dedupInner sim thr p qs seen del
    else if thr ≤ sim p q then dedupInner sim thr p qs (q :: seen) (q :: del)
    else dedupInner sim thr p qs seen del

/-- Outer loop of `removeDuplicateImages` (src/memorier.py lines 207-221):
skip positions already in `seen`, run the inner scan over the suffix, then
add the current path to `seen`. Returns the final `deleted` set. -/
def dedupOuter (sim : MediaPath → MediaPath → ℚ) (thr : ℚ) :
    List MediaPath → List MediaPath → List MediaPath → List MediaPath
  | [], _, del => del
  | p :: ps, seen, del =>
    if p ∈ seen then dedupOuter sim thr ps seen del
    else
      let sd := dedupInner sim thr p ps seen del
      dedupOuter sim thr ps (p :: sd.1) sd.2

/-- Pairwise similarity of two records' fingerprints, the denominator taken
from the first (outer) record as in src/memorier.py line 215. -/
def pathSim (h : MediaPath → Hash) (a b : MediaPath) : ℚ :=
  similarity (h a) (h b)

/-- `removeDuplicateImages` (src/memorier.py lines 200-224), with every
hash available: run the greedy scan over the dict key order and keep the
paths of `founded_paths` that were not deleted, in their original order. -/
def removeDuplicateImages (h : MediaPath → Hash) (thr : ℚ)
    (ps : List MediaPath) : List MediaPath :=
  let del := dedupOuter (pathSim h) thr (imageKeys ps) [] []
  ps.filter (fun p => decide (¬ p ∈ del))

/-- The first image record of `founded_paths` whose `Image.open`/`phash`
call raises, if any: `getImageHashes` has no exception handler, so this
record makes the whole stage raise. -/
def firstHashFailure (oracle : MediaPath → Option Hash)
    (ps : List MediaPath) : Option MediaPath :=
  ps.find? (fun p => isImageExt p && (oracle p).isNone)

def hashOf (oracle : MediaPath → Option Hash) (p : MediaPath) : Hash :=
  (oracle p).getD []

/-- `removeDuplicateImages` with fallible hashing: the first hashing
failure propagates out of `getImageHashes` uncaught (there is no
`try`/`except` in src/memorier.py lines 189-224 nor around the call at
line 378), aborting the stage and the run. -/
def removeDuplicateImagesE (oracle : MediaPath → Option Hash) (thr : ℚ)
    (ps : List MediaPath) : Except MediaPath (List MediaPath) :=
  match firstHashFailure oracle ps with
  | some p => Except.error p
  | none => Except.ok (removeDuplicateImages (hashOf oracle) thr ps)

/-- Resolution mark of the claim's (C1) description of the greedy scan. -/
inductive Mark where
  | kept : Mark
  | deleted : Mark
deriving DecidableEq

def resolvedPaths (r : List (MediaPath × Mark)) : List MediaPath :=
  r.map Prod.fst

def deletedPaths (r : List (MediaPath × Mark)) : List MediaPath :=
  (r.filter (fun e => decide (e.2 = Mark.deleted))).map Prod.fst

/-- Modelled from the claim's words (C1): inner scan over the unresolved
`j > i`, marking a similarity hit resolved-deleted. -/
def specInner (sim : MediaPath → MediaPath → ℚ) (thr : ℚ) (p : MediaPath) :
    List MediaPath → List (MediaPath × Mark) → List (MediaPath × Mark)
  | [], r => r
  | q :: qs, r =>
    if q ∈ resolvedPaths r then specInner sim thr p qs r
    else if thr ≤ sim p q then specInner sim thr p qs ((q, Mark.deleted) :: r)
    else specInner sim thr p qs r

/-- Modelled from the claim's words (C1): scan indices in collection order,
skip resolved ones, run the inner scan, then mark the current index
resolved-kept. -/
def specOuter (sim : MediaPath → MediaPath → ℚ) (thr : ℚ) :
    List MediaPath → List (MediaPath × Mark) → List (MediaPath × Mark)
  | [], r => r
  | p :: ps, r =>
    if p ∈ resolvedPaths r then specOuter sim thr ps r
    else specOuter sim thr ps ((p, Mark.kept) :: specInner sim thr p ps r)

/-- The records marked resolved-deleted by the claim's (C1) greedy rule. -/
def specDeleted (sim : MediaPath → MediaPath → ℚ) (thr : ℚ)
    (ps : List MediaPath) : List MediaPath :=
  deletedPaths (specOuter sim thr ps [])

inductive DirKind where
  | photos : DirKind
  | videos : DirKind
deriving DecidableEq

/-- A directory created by `createFolders`: one of the two roots, a year
directory, or a year/month directory (the month stored by its name, as the
code names directories `months[month_num - 1]`). -/
inductive Dir where
  | root : DirKind → Dir
  | yearDir : DirKind → ℕ → Dir
  | monthDir : DirKind → ℕ → String → Dir
deriving DecidableEq

def monthNames : List String :=
  ["January", "February", "March", "April", "May", "June",
   "July", "August", "September", "October", "November", "December"]

def monthName (m : ℕ) : String := monthNames.getD (m - 1) ""

def insertSorted (x : ℕ) : List ℕ → List ℕ
  | [] => [x]
  | y :: ys => if x ≤ y then x :: y :: ys else y :: insertSorted x ys

/-- Python `sorted` over a set of naturals. -/
def sortNat : List ℕ → List ℕ
  | [] => []
  | x :: xs => insertSorted x (sortNat xs)

/-- `years_with_files` of `createFolders`: the set of years of the
surviving records. -/
def yearsOf (dateOf : MediaPath → ℕ × ℕ) (ps : List MediaPath) : List ℕ :=
  (ps.map (fun p => (dateOf p).1)).dedup

/-- `months_with_files[y]` of `createFolders`: the set of months of the
surviving records whose year is `y`. -/
def monthsOf (dateOf : MediaPath → ℕ × ℕ) (ps : List MediaPath) (y : ℕ) :
    List ℕ :=
  ((ps.filter (fun p => (dateOf p).1 == y)).map (fun p => (dateOf p).2)).dedup

/-- The directories created by `createFolders`
(src/memorier.py lines 281-336): both roots, then for every year with at
least one record a year directory under both roots, and for every month of
that year with at least one record a month directory under both roots —
the record's kind is never consulted. -/
def createFolders (dateOf : MediaPath → ℕ × ℕ) (ps : List MediaPath) :
    List Dir :=
  [Dir.root DirKind.photos, Dir.root DirKind.videos]
    ++ (sortNat (yearsOf dateOf ps)).flatMap (fun y =>
        [Dir.yearDir DirKind.photos y, Dir.yearDir DirKind.videos y]
          ++ (sortNat (monthsOf dateOf ps y)).flatMap (fun m =>
              [Dir.monthDir DirKind.photos y (monthName m),
               Dir.monthDir DirKind.videos y (monthName m)]))

/-! ## Correspondence between the code's seen/deleted sets and the claim's
resolved-with-marks bookkeeping -/

theorem resolvedPaths_cons (e : MediaPath × Mark) (r : List (MediaPath × Mark)) :
    resolvedPaths (e :: r) = e.1 :: resolvedPaths r := rfl

theorem deletedPaths_cons_deleted (q : MediaPath) (r : List (MediaPath × Mark)) :
    deletedPaths ((q, Mark.deleted) :: r) = q :: deletedPaths r := by
  simp [deletedPaths]

theorem deletedPaths_cons_kept (q : MediaPath) (r : List (MediaPath × Mark)) :
    deletedPaths ((q, Mark.kept) :: r) = deletedPaths r := by
  simp [deletedPaths]

theorem dedupInner_eq_spec (sim : MediaPath → MediaPath → ℚ) (thr : ℚ)
    (p : MediaPath) :
    ∀ (qs : List MediaPath) (r : List (MediaPath × Mark)),
      dedupInner sim thr p qs (resolvedPaths r) (deletedPaths r)
        = (resolvedPaths (specInner sim thr p qs r),
           deletedPaths (specInner sim thr p qs r))
  | [], r => rfl
  | q :: qs, r => by
    by_cases hq : q ∈ resolvedPaths r
    · simp only [dedupInner, specInner, if_pos hq]
      exact dedupInner_eq_spec sim thr p qs r
    · by_cases hs : thr ≤ sim p q
      · simp only [dedupInner, specInner, if_neg hq, if_pos hs]
        have := dedupInner_eq_spec sim thr p qs ((q, Mark.deleted) :: r)
        simpa [resolvedPaths_cons, deletedPaths_cons_deleted] using this
      · simp only [dedupInner, specInner, if_neg hq, if_neg hs]
        exact dedupInner_eq_spec sim thr p qs r

theorem dedupOuter_eq_spec (sim : MediaPath → MediaPath → ℚ) (thr : ℚ) :
    ∀ (l : List MediaPath) (r : List (MediaPath × Mark)),
      dedupOuter sim thr l (resolvedPaths r) (deletedPaths r)
        = deletedPaths (specOuter sim thr l r)
  | [], r => rfl
  | p :: ps, r => by
    by_cases hp : p ∈ resolvedPaths r
    · simp only [dedupOuter, specOuter, if_pos hp]
      exact dedupOuter_eq_spec sim thr ps r
    · simp only [dedupOuter, specOuter, if_neg hp,
        dedupInner_eq_spec sim thr p ps r]
      have := dedupOuter_eq_spec sim thr ps
        ((p, Mark.kept) :: specInner sim thr p ps r)
      simpa [resolvedPaths_cons, deletedPaths_cons_kept] using this

theorem dedupOuter_eq_specDeleted (sim : MediaPath → MediaPath → ℚ)
    (thr : ℚ) (l : List MediaPath) :
    dedupOuter sim thr l [] [] = specDeleted sim thr l := by
  have := dedupOuter_eq_spec sim thr l []
  simpa [specDeleted, resolvedPaths, deletedPaths] using this

/-- Claim C1: `removeDuplicateImages` partitions the hashed image records
by the greedy single-pass rule of the spec (scan in collection order,
skip resolved indices, delete every unresolved later index whose
similarity meets the threshold, then mark the scanned index kept), and the
output working set is exactly the input minus the deleted records with
the survivors in their original relative order. -/
theorem removeDuplicateImages_greedy_spec (h : MediaPath → Hash) (thr : ℚ)
    (ps : List MediaPath) :
    removeDuplicateImages h thr ps
        = ps.filter
            (fun p => decide (¬ p ∈ specDeleted (pathSim h) thr (imageKeys ps)))
      ∧ List.Sublist (removeDuplicateImages h thr ps) ps := by
  constructor
  · simp only [removeDuplicateImages, dedupOuter_eq_specDeleted]
  · exact List.filter_sublist ps

/-! ## Properties of the dict key order -/

theorem mem_dictInsert (ks : List MediaPath) (p x : MediaPath) :
    x ∈ dictInsert ks p ↔ x ∈ ks ∨ x = p := by
  by_cases hp : p ∈ ks
  · simp only [dictInsert, if_pos hp]
    constructor
    · exact fun h => Or.inl h
    · rintro (h | rfl)
      · exact h
      · exact hp
  · simp [dictInsert, if_neg hp]

theorem imageKeys_aux_mem (ps : List MediaPath) :
    ∀ (acc : List MediaPath) (x : MediaPath),
      x ∈ ps.foldl (fun ks p => if isImageExt p then dictInsert ks p else ks) acc →
        x ∈ acc ∨ (x ∈ ps ∧ isImageExt x = true) := by
  induction ps with
  | nil => intro acc x hx; exact Or.inl hx
  | cons a t ih =>
    intro acc x hx
    simp only [List.foldl_cons] at hx
    rcases ih _ x hx with h | h
    · by_cases ha : isImageExt a
      · rw [if_pos ha] at h
        rcases (mem_dictInsert acc a x).1 h with h2 | rfl
        · exact Or.inl h2
        · exact Or.inr ⟨List.mem_cons_self _ _, ha⟩
      · rw [if_neg ha] at h
        exact Or.inl h
    · exact Or.inr ⟨List.mem_cons_of_mem _ h.1, h.2⟩

theorem mem_of_mem_imageKeys (ps : List MediaPath) (x : MediaPath)
    (hx : x ∈ imageKeys ps) : x ∈ ps ∧ isImageExt x = true := by
  rcases imageKeys_aux_mem ps [] x hx with h | h
  · simp at h
  · exact h

theorem dictInsert_nodup (ks : List MediaPath) (p : MediaPath)
    (hk : ks.Nodup) : (dictInsert ks p).Nodup := by
  by_cases hp : p ∈ ks
  · simpa [dictInsert, if_pos hp] using hk
  · rw [dictInsert, if_neg hp]
    rw [List.nodup_append]
    refine ⟨hk, List.nodup_singleton p, ?_⟩
    intro a ha hb
    rw [List.mem_singleton] at hb
    subst hb
    exact hp ha

theorem imageKeys_aux_nodup (ps : List MediaPath) :
    ∀ acc : List MediaPath, acc.Nodup →
      (ps.foldl (fun ks p => if isImageExt p then dictInsert ks p else ks) acc).Nodup := by
  induction ps with
  | nil => intro acc h; exact h
  | cons a t ih =>
    intro acc h
    simp only [List.foldl_cons]
    apply ih
    by_cases ha : isImageExt a
    · rw [if_pos ha]; exact dictInsert_nodup acc a h
    · rw [if_neg ha]; exact h

theorem imageKeys_nodup (ps : List MediaPath) : (imageKeys ps).Nodup :=
  imageKeys_aux_nodup ps [] List.nodup_nil

/-! ## Determinism of the duplicate scan (congruence in the similarity
function) -/

theorem dedupInner_congr (sim1 sim2 : MediaPath → MediaPath → ℚ) (thr : ℚ)
    (p : MediaPath) :
    ∀ (qs : List MediaPath), (∀ q ∈ qs, sim1 p q = sim2 p q) →
      ∀ (seen del : List MediaPath),
        dedupInner sim1 thr p qs seen del = dedupInner sim2 thr p qs seen del := by
  intro qs
  induction qs with
  | nil => intro _ seen del; rfl
  | cons q t ih =>
    intro hag seen del
    have hq : sim1 p q = sim2 p q := hag q (List.mem_cons_self _ _)
    have ht : ∀ x ∈ t, sim1 p x = sim2 p x :=
      fun x hx => hag x (List.mem_cons_of_mem _ hx)
    simp only [dedupInner, hq]
    by_cases hs : q ∈ seen
    · rw [if_pos hs, if_pos hs]; exact ih ht seen del
    · rw [if_neg hs, if_neg hs]
      by_cases hle : thr ≤ sim2 p q
      · rw [if_pos hle, if_pos hle]; exact ih ht _ _
      · rw [if_neg hle, if_neg hle]; exact ih ht _ _

theorem dedupOuter_congr (sim1 sim2 : MediaPath → MediaPath → ℚ) (thr : ℚ) :
    ∀ (l : List MediaPath), (∀ a ∈ l, ∀ b ∈ l, sim1 a b = sim2 a b) →
      ∀ (seen del : List MediaPath),
        dedupOuter sim1 thr l seen del = dedupOuter sim2 thr l seen del := by
  intro l
  induction l with
  | nil => intro _ seen del; rfl
  | cons p t ih =>
    intro hag seen del
    have ht : ∀ a ∈ t, ∀ b ∈ t, sim1 a b = sim2 a b :=
      fun a ha b hb =>
        hag a (List.mem_cons_of_mem _ ha) b (List.mem_cons_of_mem _ hb)
    have hin : dedupInner sim1 thr p t seen del = dedupInner sim2 thr p t seen del :=
      dedupInner_congr sim1 sim2 thr p t
        (fun q hq => hag p (List.mem_cons_self _ _) q (List.mem_cons_of_mem _ hq))
        seen del
    simp only [dedupOuter]
    by_cases hs : p ∈ seen
    · rw [if_pos hs, if_pos hs]; exact ih ht seen del
    · rw [if_neg hs, if_neg hs, hin]
      exact ih ht _ _

/-- Claim C9: the duplicate-removal stage is deterministic — for the same
working-set order, the same fingerprints on its records, and the same
threshold, the resulting kept/deleted partition is identical. -/
theorem removeDuplicateImages_deterministic (h1 h2 : MediaPath → Hash)
    (thr : ℚ) (ps : List MediaPath) (hag : ∀ p ∈ ps, h1 p = h2 p) :
    removeDuplicateImages h1 thr ps = removeDuplicateImages h2 thr ps := by
  have hkeys : ∀ a ∈ imageKeys ps, ∀ b ∈ imageKeys ps,
      pathSim h1 a b = pathSim h2 a b := by
    intro a ha b hb
    have ha2 := (mem_of_mem_imageKeys ps a ha).1
    have hb2 := (mem_of_mem_imageKeys ps b hb).1
    simp only [pathSim, hag a ha2, hag b hb2]
  simp only [removeDuplicateImages,
    dedupOuter_congr (pathSim h1) (pathSim h2) thr (imageKeys ps) hkeys]

/-! ## The first hashed record always survives the duplicate scan -/

theorem dedupInner_del_subset (sim : MediaPath → MediaPath → ℚ) (thr : ℚ)
    (p : MediaPath) :
    ∀ (qs seen del : List MediaPath) (x : MediaPath),
      x ∈ (dedupInner sim thr p qs seen del).2 → x ∈ del ∨ x ∈ qs := by
  intro qs
  induction qs with
  | nil => intro seen del x hx; exact Or.inl hx
  | cons q t ih =>
    intro seen del x hx
    simp only [dedupInner] at hx
    by_cases hq : q ∈ seen
    · rw [if_pos hq] at hx
      rcases ih seen del x hx with h | h
      · exact Or.inl h
      · exact Or.inr (List.mem_cons_of_mem _ h)
    · rw [if_neg hq] at hx
      by_cases hs : thr ≤ sim p q
      · rw [if_pos hs] at hx
        rcases ih _ _ x hx with h | h
        · rcases List.mem_cons.1 h with rfl | h2
          · exact Or.inr (List.mem_cons_self _ _)
          · exact Or.inl h2
        · exact Or.inr (List.mem_cons_of_mem _ h)
      · rw [if_neg hs] at hx
        rcases ih seen del x hx with h | h
        · exact Or.inl h
        · exact Or.inr (List.mem_cons_of_mem _ h)

theorem dedupInner_seen_mono (sim : MediaPath → MediaPath → ℚ) (thr : ℚ)
    (p : MediaPath) :
    ∀ (qs seen del : List MediaPath) (x : MediaPath),
      x ∈ seen → x ∈ (dedupInner sim thr p qs seen del).1 := by
  intro qs
  induction qs with
  | nil => intro seen del x hx; exact hx
  | cons q t ih =>
    intro seen del x hx
    simp only [dedupInner]
    by_cases hq : q ∈ seen
    · rw [if_pos hq]; exact ih seen del x hx
    · rw [if_neg hq]
      by_cases hs : thr ≤ sim p q
      · rw [if_pos hs]; exact ih _ _ x (List.mem_cons_of_mem _ hx)
      · rw [if_neg hs]; exact ih seen del x hx

theorem dedupInner_preserves_nondeleted (sim : MediaPath → MediaPath → ℚ)
    (thr : ℚ) (p : MediaPath) :
    ∀ (qs seen del : List MediaPath) (x : MediaPath),
      x ∈ seen → ¬ x ∈ del → ¬ x ∈ (dedupInner sim thr p qs seen del).2 := by
  intro qs
  induction qs with
  | nil => intro seen del x _ hd hx; exact hd hx
  | cons q t ih =>
    intro seen del x hseen hd
    simp only [dedupInner]
    by_cases hq : q ∈ seen
    · rw [if_pos hq]; exact ih seen del x hseen hd
    · rw [if_neg hq]
      by_cases hs : thr ≤ sim p q
      · rw [if_pos hs]
        have hne : x ≠ q := fun h => hq (h ▸ hseen)
        exact ih _ _ x (List.mem_cons_of_mem _ hseen)
          (fun h => (List.mem_cons.1 h).elim hne hd)
      · rw [if_neg hs]; exact ih seen del x hseen hd

theorem dedupOuter_preserves_nondeleted (sim : MediaPath → MediaPath → ℚ)
    (thr : ℚ) :
    ∀ (l seen del : List MediaPath) (x : MediaPath),
      x ∈ seen → ¬ x ∈ del → ¬ x ∈ dedupOuter sim thr l seen del := by
  intro l
  induction l with
  | nil => intro seen del x _ hd hx; exact hd hx
  | cons p t ih =>
    intro seen del x hseen hd
    simp only [dedupOuter]
    by_cases hp : p ∈ seen
    · rw [if_pos hp]; exact ih seen del x hseen hd
    · rw [if_neg hp]
      exact ih _ _ x
        (List.mem_cons_of_mem _ (dedupInner_seen_mono sim thr p t seen del x hseen))
        (dedupInner_preserves_nondeleted sim thr p t seen del x hseen hd)

/-- Claim C10: the first hashed image record is never deleted — whenever
the dict of hashed images is non-empty, its first key survives into the
output working set, for any fingerprints and any threshold. -/
theorem removeDuplicateImages_keeps_first (h : MediaPath → Hash) (thr : ℚ)
    (ps : List MediaPath) (p : MediaPath)
    (hhead : (imageKeys ps).head? = some p) :
    p ∈ removeDuplicateImages h thr ps := by
  obtain ⟨t, ht⟩ : ∃ t, imageKeys ps = p :: t := by
    cases hk : imageKeys ps with
    | nil => rw [hk] at hhead; simp at hhead
    | cons a t =>
      rw [hk] at hhead
      simp only [List.head?_cons, Option.some.injEq] at hhead
      exact ⟨t, by rw [hhead]⟩
  have hmem : p ∈ ps := by
    have : p ∈ imageKeys ps := by rw [ht]; exact List.mem_cons_self _ _
    exact (mem_of_mem_imageKeys ps p this).1
  have hnodup : (p :: t).Nodup := ht ▸ imageKeys_nodup ps
  have hpt : ¬ p ∈ t := (List.nodup_cons.1 hnodup).1
  have hdel : ¬ p ∈ dedupOuter (pathSim h) thr (imageKeys ps) [] [] := by
    rw [ht]
    simp only [dedupOuter, List.not_mem_nil, if_neg (fun h => h : ¬ False)]
    apply dedupOuter_preserves_nondeleted
    · exact List.mem_cons_self _ _
    · intro hx
      rcases dedupInner_del_subset (pathSim h) thr p t [] [] p hx with h2 | h2
      · simp at h2
      · exact hpt h2
  simp only [removeDuplicateImages, List.mem_filter, decide_eq_true_iff]
  exact ⟨hmem, hdel⟩

/-! ## The similarity denominator -/

theorem sum_map_length_const :
    ∀ (h : List (List Bool)) (n : ℕ), (∀ row ∈ h, row.length = n) →
      (h.map List.length).sum = h.length * n := by
  intro h
  induction h with
  | nil => intro n _; simp
  | cons a t ih =>
    intro n hrow
    have ha : a.length = n := hrow a (List.mem_cons_self _ _)
    have ht : ∀ row ∈ t, row.length = n :=
      fun row hr => hrow row (List.mem_cons_of_mem _ hr)
    simp only [List.map_cons, List.sum_cons, List.length_cons, ih n ht, ha]
    ring

/-- Claim C2 (amended): for a square hash array (as `phash` always
produces), the code's similarity equals
`(1 - distance / bitLength) * 100` — the denominator is the fingerprint's
bit length itself (`len(h.hash) ** 2` = rows squared = number of bits),
not the square of the bit length. -/
theorem similarity_eq_div_bitLength (h1 h2 : Hash)
    (hsq : ∀ row ∈ h1, row.length = List.length h1) :
    similarity h1 h2
      = (1 - (hammingDistance h1 h2 : ℚ) / (bitLength h1 : ℚ)) * 100 := by
  have hb : bitLength h1 = List.length h1 * List.length h1 :=
    sum_map_length_const h1 (List.length h1) hsq
  have hcast : ((List.length h1 : ℚ)) ^ 2 = (bitLength h1 : ℚ) := by
    rw [hb]; push_cast; ring
  simp only [similarity, hcast]

theorem similarity_eq_div_bitLength_witness :
    (∀ row ∈ flatHash, row.length = List.length flatHash)
      ∧ similarity flatHash fullHash
          = (1 - (hammingDistance flatHash fullHash : ℚ)
                / (bitLength flatHash : ℚ)) * 100 :=
  ⟨by decide, similarity_eq_div_bitLength flatHash fullHash (by decide)⟩

/-- Claim C2 (counterexample): on two 8 by 8 fingerprints differing in all
64 bits, the code computes similarity 0, while the claim's formula
`(1 - distance / bitLength ^ 2) * 100` gives 98.4375 — the two formulas
disagree. -/
theorem similarity_denominator_counterexample :
    similarity flatHash fullHash = 0
      ∧ claimSimilarity flatHash fullHash = 1575 / 16
      ∧ similarity flatHash fullHash ≠ claimSimilarity flatHash fullHash := by
  have hd : hammingDistance flatHash fullHash = 64 := by decide
  have hl : List.length flatHash = 8 := by decide
  have hb : bitLength flatHash = 64 := by decide
  have h1 : similarity flatHash fullHash = 0 := by
    simp only [similarity, hd, hl]; norm_num
  have h2 : claimSimilarity flatHash fullHash = 1575 / 16 := by
    simp only [claimSimilarity, hd, hb]; norm_num
  exact ⟨h1, h2, by rw [h1, h2]; norm_num⟩

/-! ## Hashing failure aborts the duplicate stage -/

/-- Claim C3 (amended): a record whose image cannot be opened for
fingerprint hashing makes `getImageHashes` raise (there is no handler in
src/memorier.py lines 189-198), so `removeDuplicateImages` aborts with an
error instead of returning a working set. -/
theorem removeDuplicateImages_hashFailure_aborts
    (oracle : MediaPath → Option Hash) (thr : ℚ) (ps : List MediaPath)
    (hex : ∃ p ∈ ps, isImageExt p = true ∧ oracle p = none) :
    ∃ e, removeDuplicateImagesE oracle thr ps = Except.error e := by
  have hb : ∃ x, x ∈ ps ∧ (isImageExt x && (oracle x).isNone) = true := by
    obtain ⟨p, hp, hi, ho⟩ := hex
    exact ⟨p, hp, by simp [hi, ho]⟩
  have hsome : (firstHashFailure oracle ps).isSome := by
    rw [firstHashFailure, List.find?_isSome]
    obtain ⟨x, hx, hpx⟩ := hb
    exact ⟨x, hx, hpx⟩
  obtain ⟨e, he⟩ := Option.isSome_iff_exists.1 hsome
  exact ⟨e, by simp [removeDuplicateImagesE, he]⟩

theorem removeDuplicateImages_hashFailure_aborts_witness :
    (∃ p ∈ ([samplePhoto] : List MediaPath),
        isImageExt p = true ∧ (fun _ : MediaPath => (none : Option Hash)) p = none)
      ∧ ∃ e, removeDuplicateImagesE (fun _ => (none : Option Hash)) 95
              [samplePhoto] = Except.error e :=
  ⟨⟨samplePhoto, by decide, by decide, rfl⟩,
   removeDuplicateImages_hashFailure_aborts (fun _ => none) 95 [samplePhoto]
     ⟨samplePhoto, by decide, by decide, rfl⟩⟩

/-- Claim C3 (counterexample): with a single image record whose hashing
fails, the stage returns an error — it does not return any working set, so
the record is not "kept in the output unchanged" and the failure does
abort the run. -/
theorem removeDuplicateImages_hashFailure_counterexample :
    removeDuplicateImagesE (fun _ => (none : Option Hash)) 95 [samplePhoto]
        = Except.error samplePhoto
      ∧ ∀ out : List MediaPath,
          removeDuplicateImagesE (fun _ => (none : Option Hash)) 95 [samplePhoto]
            ≠ Except.ok out := by
  have h : removeDuplicateImagesE (fun _ => (none : Option Hash)) 95 [samplePhoto]
      = Except.error samplePhoto := by rfl
  refine ⟨h, ?_⟩
  intro out hout
  rw [h] at hout
  exact Except.noConfusion hout

/-! ## Size filter: failed deletions and the boundary rule -/

theorem removeLargeFold_keeps (sizeOf : MediaPath → Option ℕ)
    (del : MediaPath → Bool) (maxI maxV : ℕ) :
    ∀ (snap st : List MediaPath) (p : MediaPath), p ∈ st → del p = false →
      p ∈ snap.foldl (removeLargeStep sizeOf del maxI maxV) st := by
  intro snap
  induction snap with
  | nil => intro st p hp _; exact hp
  | cons q t ih =>
    intro st p hp hdel
    simp only [List.foldl_cons]
    refine ih _ p ?_ hdel
    by_cases hc : (shouldRemoveLarge sizeOf maxI maxV q && del q) = true
    · rw [removeLargeStep, if_pos hc]
      rw [Bool.and_eq_true] at hc
      have hq : del q = true := hc.2
      have hne : p ≠ q := by
        intro h
        rw [h, hq] at hdel
        exact Bool.noConfusion hdel
      exact (List.mem_erase_of_ne hne).2 hp
    · rw [removeLargeStep, if_neg hc]; exact hp

/-- Claim C4 (amended): in `removeLargeFiles`, when the deletion of a
rejected record's file fails, the failure is only logged and the record
REMAINS in the returned working set — `founded_paths.remove` runs only
after a successful `os.remove`. -/
theorem removeLargeFiles_deleteFailure_keeps (sizeOf : MediaPath → Option ℕ)
    (del : MediaPath → Bool) (maxI maxV : ℕ) (ps : List MediaPath)
    (p : MediaPath) (hp : p ∈ ps) (hdel : del p = false) :
    p ∈ removeLargeFiles sizeOf del maxI maxV ps :=
  removeLargeFold_keeps sizeOf del maxI maxV ps ps p hp hdel

theorem removeLargeFiles_deleteFailure_keeps_witness :
    (oversizedPhoto ∈ ([oversizedPhoto] : List MediaPath))
      ∧ ((fun _ : MediaPath => false) oversizedPhoto = false)
      ∧ oversizedPhoto ∈ removeLargeFiles
          (fun _ => some (defaultMaxImageBytes + 1)) (fun _ => false)
          defaultMaxImageBytes defaultMaxVideoBytes [oversizedPhoto] :=
  ⟨by decide, rfl,
   removeLargeFiles_deleteFailure_keeps _ _ _ _ _ _ (by decide) rfl⟩

/-- Claim C4 (counterexample): an image one byte over the default ceiling
whose `os.remove` fails is rejected by the size rule, yet the returned
working set still contains it — the record is not dropped. -/
theorem removeLargeFiles_deleteFailure_counterexample :
    shouldRemoveLarge (fun _ => some (defaultMaxImageBytes + 1))
        defaultMaxImageBytes defaultMaxVideoBytes oversizedPhoto = true
      ∧ removeLargeFiles (fun _ => some (defaultMaxImageBytes + 1))
          (fun _ => false) defaultMaxImageBytes defaultMaxVideoBytes
          [oversizedPhoto] = [oversizedPhoto] := by
  constructor
  · decide
  · rfl

theorem eraseFold_cons_notRemoved (bad : MediaPath → Bool) (a : MediaPath)
    (ha : bad a = false) :
    ∀ (snap st : List MediaPath),
      snap.foldl (fun st q => if bad q then st.erase q else st) (a :: st)
        = a :: snap.foldl (fun st q => if bad q then st.erase q else st) st := by
  intro snap
  induction snap with
  | nil => intro st; rfl
  | cons q t ih =>
    intro st
    simp only [List.foldl_cons]
    by_cases hq : bad q
    · rw [if_pos hq, if_pos hq]
      have hne : ¬ a = q := by
        intro h
        rw [h, hq] at ha
        exact Bool.noConfusion ha
      rw [List.erase_cons]
      rw [if_neg (by simpa using hne)]
      exact ih (st.erase q)
    · rw [if_neg hq, if_neg hq]; exact ih st

theorem eraseFold_self (bad : MediaPath → Bool) :
    ∀ l : List MediaPath,
      l.foldl (fun st q => if bad q then st.erase q else st) l
        = l.filter (fun p => !(bad p)) := by
  intro l
  induction l with
  | nil => rfl
  | cons a t ih =>
    simp only [List.foldl_cons]
    by_cases ha : bad a
    · rw [if_pos ha, List.erase_cons_head, ih, List.filter_cons]
      simp [ha]
    · rw [if_neg ha, eraseFold_cons_notRemoved bad a (by simpa using ha) t t,
        ih, List.filter_cons]
      simp [ha]

theorem removeLargeFold_all_deletes (sizeOf : MediaPath → Option ℕ)
    (del : MediaPath → Bool) (maxI maxV : ℕ) (hdel : ∀ q, del q = true) :
    ∀ (snap st : List MediaPath),
      snap.foldl (removeLargeStep sizeOf del maxI maxV) st
        = snap.foldl
            (fun st q => if shouldRemoveLarge sizeOf maxI maxV q then st.erase q else st)
            st := by
  intro snap
  induction snap with
  | nil => intro st; rfl
  | cons q t ih =>
    intro st
    simp only [List.foldl_cons, removeLargeStep, hdel q, Bool.and_true]
    exact ih _

theorem image_not_video (p : MediaPath) (h : isImageExt p = true) :
    isVideoExt p = false := by
  simp only [isImageExt, decide_eq_true_eq, imageExts, List.mem_cons,
    List.not_mem_nil, or_false] at h
  simp only [isVideoExt, videoExts, decide_eq_false_iff_not]
  intro hv
  rcases h with h | h | h | h | h <;> rw [h] at hv <;> exact absurd hv (by decide)

theorem shouldRemoveLarge_eq_false (sizeOf : MediaPath → Option ℕ)
    (maxI maxV : ℕ) (p : MediaPath) :
    shouldRemoveLarge sizeOf maxI maxV p = false ↔
      ∃ s, sizeOf p = some s ∧ (isImageExt p = true → s ≤ maxI)
        ∧ (isVideoExt p = true → s ≤ maxV) := by
  cases hs : sizeOf p with
  | none => simp [shouldRemoveLarge, hs]
  | some s =>
    by_cases hi : isImageExt p
    · have hv : isVideoExt p = false := image_not_video p hi
      simp [shouldRemoveLarge, hs, hi, hv, Nat.not_lt]
    · by_cases hv : isVideoExt p
      · simp [shouldRemoveLarge, hs, hi, hv, Nat.not_lt]
      · simp [shouldRemoveLarge, hs, hi, hv]

/-- Claim C8: with deletions succeeding, the size filter keeps a record
exactly when its size is readable and does not exceed its kind's ceiling —
a record at exactly the ceiling is kept, one strictly over is deleted, and
a record whose size cannot be read is deleted unconditionally. -/
theorem removeLargeFiles_boundary (sizeOf : MediaPath → Option ℕ)
    (del : MediaPath → Bool) (maxI maxV : ℕ) (ps : List MediaPath)
    (p : MediaPath) (hdel : ∀ q, del q = true) :
    p ∈ removeLargeFiles sizeOf del maxI maxV ps ↔
      p ∈ ps ∧ ∃ s, sizeOf p = some s ∧ (isImageExt p = true → s ≤ maxI)
        ∧ (isVideoExt p = true → s ≤ maxV) := by
  rw [removeLargeFiles,
    removeLargeFold_all_deletes sizeOf del maxI maxV hdel ps ps,
    eraseFold_self (shouldRemoveLarge sizeOf maxI maxV) ps, List.mem_filter]
  rw [Bool.not_eq_eq_eq_not, Bool.not_true, shouldRemoveLarge_eq_false]

theorem removeLargeFiles_boundary_witness :
    (∀ q : MediaPath, (fun _ : MediaPath => true) q = true)
      ∧ (samplePhoto ∈ removeLargeFiles (fun _ => some defaultMaxImageBytes)
            (fun _ => true) defaultMaxImageBytes defaultMaxVideoBytes
            [samplePhoto] ↔
          samplePhoto ∈ ([samplePhoto] : List MediaPath)
            ∧ ∃ s, (fun _ : MediaPath => some defaultMaxImageBytes) samplePhoto = some s
                ∧ (isImageExt samplePhoto = true → s ≤ defaultMaxImageBytes)
                ∧ (isVideoExt samplePhoto = true → s ≤ defaultMaxVideoBytes)) :=
  ⟨fun _ => rfl,
   removeLargeFiles_boundary (fun _ => some defaultMaxImageBytes)
     (fun _ => true) defaultMaxImageBytes defaultMaxVideoBytes [samplePhoto]
     samplePhoto (fun _ => rfl)⟩

/-! ## Path uniqueness across stages -/

/-- Claim C5 (amended): the working set is unique by path after collection
(collection preserves distinctness of the traversal's paths), but the
Normalize stage does NOT preserve the invariant — two records whose paths
differ only in their convertible extension are rewritten to the same
target path. -/
theorem workingSet_unique_amended :
    (∀ walk : List MediaPath, walk.Nodup → (collectFiles walk).Nodup)
      ∧ ∃ ps : List MediaPath, ps.Nodup
          ∧ ¬ (convertTypes true (fun _ => true) ps).Nodup := by
  constructor
  · intro walk h
    exact h.filter _
  · exact ⟨[webpSample, heicSample], by decide, by decide⟩

theorem workingSet_unique_amended_witness :
    ([webpSample, heicSample] : List MediaPath).Nodup
      ∧ (collectFiles [webpSample, heicSample]).Nodup :=
  ⟨by decide, workingSet_unique_amended.1 [webpSample, heicSample] (by decide)⟩

/-- Claim C5 (counterexample): `a.webp` and `a.heic` are distinct paths,
yet after `convertTypes` (HEIF decoder present, both conversions
succeeding) both records carry the path `a.png` — the working set is no
longer unique by path after the Normalize stage. -/
theorem workingSet_unique_counterexample :
    ([webpSample, heicSample] : List MediaPath).Nodup
      ∧ ¬ (convertTypes true (fun _ => true) [webpSample, heicSample]).Nodup := by
  decide

/-! ## Normalize failure is pass-through -/

/-- Claim C7: a record whose conversion attempt fails (transcoder error or
timeout, i.e. the attempt oracle reports failure, or a HEIC file with no
decoder available) stays in the output working set at the same position
with its original, unmodified path; the stage is total, so the failure
never aborts the run. -/
theorem convertTypes_failure_passthrough (heif : Bool)
    (ok : MediaPath → Bool) (ps : List MediaPath) (i : ℕ) (p : MediaPath)
    (hp : ps.get? i = some p)
    (hfail : ok p = false ∨ (heif = false ∧ extLower p = ".heic")) :
    (convertTypes heif ok ps).get? i = some p := by
  have hone : convertOne heif ok p = p := by
    rcases hfail with hok | ⟨hh, he⟩
    · unfold convertOne
      by_cases h1 : extLower p = ".heic"
      · rw [if_pos h1]
        by_cases h2 : heif = false
        · rw [if_pos h2]
        · rw [if_neg h2, hok]; simp
      · rw [if_neg h1]
        by_cases h2 : extLower p = ".webp"
        · rw [if_pos h2, hok]; simp
        · rw [if_neg h2]
          by_cases h3 : extLower p ∈ [".avi", ".mkv", ".mov", ".webm"]
          · rw [if_pos h3, hok]; simp
          · rw [if_neg h3]
    · unfold convertOne
      rw [if_pos he, if_pos hh]
  rw [convertTypes, List.get?_map, hp]
  simp [hone]

theorem convertTypes_failure_passthrough_witness :
    (([aviSample] : List MediaPath).get? 0 = some aviSample)
      ∧ ((fun _ : MediaPath => false) aviSample = false
          ∨ (true = false ∧ extLower aviSample = ".heic"))
      ∧ (convertTypes true (fun _ => false) [aviSample]).get? 0 = some aviSample :=
  ⟨rfl, Or.inl rfl,
   convertTypes_failure_passthrough true (fun _ => false) [aviSample] 0
     aviSample rfl (Or.inl rfl)⟩

/-! ## Chronological folder creation -/

theorem mem_insertSorted (x a : ℕ) :
    ∀ l : List ℕ, a ∈ insertSorted x l ↔ a = x ∨ a ∈ l := by
  intro l
  induction l with
  | nil => simp [insertSorted]
  | cons y ys ih =>
    simp only [insertSorted]
    by_cases h : x ≤ y
    · rw [if_pos h]
      simp [List.mem_cons]
    · rw [if_neg h]
      simp only [List.mem_cons, ih]
      tauto

theorem mem_sortNat (a : ℕ) : ∀ l : List ℕ, a ∈ sortNat l ↔ a ∈ l := by
  intro l
  induction l with
  | nil => simp [sortNat]
  | cons x xs ih => simp [sortNat, mem_insertSorted, ih, List.mem_cons]

theorem monthDir_mem_monthBlock (k : DirKind) (y : ℕ) (nm : String)
    (y0 : ℕ) (ms : List ℕ) :
    Dir.monthDir k y nm ∈ ms.flatMap (fun m =>
        [Dir.monthDir DirKind.photos y0 (monthName m),
         Dir.monthDir DirKind.videos y0 (monthName m)]) ↔
      y = y0 ∧ ∃ m ∈ ms, monthName m = nm := by
  rw [List.mem_flatMap]
  constructor
  · rintro ⟨m, hm, h⟩
    rcases List.mem_cons.1 h with h | h
    · injection h with h1 h2 h3
      exact ⟨h2, m, hm, h3.symm⟩
    · rw [List.mem_singleton] at h
      injection h with h1 h2 h3
      exact ⟨h2, m, hm, h3.symm⟩
  · rintro ⟨rfl, m, hm, hnm⟩
    cases k
    · exact ⟨m, hm, by rw [← hnm]; exact List.mem_cons_self _ _⟩
    · refine ⟨m, hm, ?_⟩
      rw [← hnm]
      exact List.mem_cons_of_mem _ (List.mem_singleton.2 rfl)

theorem monthDir_mem_yearBlock (dateOf : MediaPath → ℕ × ℕ)
    (ps : List MediaPath) (k : DirKind) (y : ℕ) (nm : String)
    (ys : List ℕ) :
    Dir.monthDir k y nm ∈ ys.flatMap (fun y0 =>
        [Dir.yearDir DirKind.photos y0, Dir.yearDir DirKind.videos y0]
          ++ (sortNat (monthsOf dateOf ps y0)).flatMap (fun m =>
              [Dir.monthDir DirKind.photos y0 (monthName m),
               Dir.monthDir DirKind.videos y0 (monthName m)])) ↔
      y ∈ ys ∧ ∃ m ∈ monthsOf dateOf ps y, monthName m = nm := by
  rw [List.mem_flatMap]
  constructor
  · rintro ⟨y0, hy0, hmem⟩
    rcases List.mem_append.1 hmem with h | h
    · rcases List.mem_cons.1 h with h | h
      · exact absurd h (by simp)
      · rw [List.mem_singleton] at h
        exact absurd h (by simp)
    · obtain ⟨rfl, m, hm, hnm⟩ := (monthDir_mem_monthBlock k y nm y0 _).1 h
      exact ⟨hy0, m, (mem_sortNat m _).1 hm, hnm⟩
  · rintro ⟨hy, m, hm, hnm⟩
    refine ⟨y, hy, List.mem_append.2 (Or.inr ?_)⟩
    exact (monthDir_mem_monthBlock k y nm y _).2
      ⟨rfl, m, (mem_sortNat m _).2 hm, hnm⟩

theorem mem_yearsOf (dateOf : MediaPath → ℕ × ℕ) (ps : List MediaPath)
    (y : ℕ) : y ∈ yearsOf dateOf ps ↔ ∃ p ∈ ps, (dateOf p).1 = y := by
  simp [yearsOf, List.mem_dedup, List.mem_map]

theorem mem_monthsOf (dateOf : MediaPath → ℕ × ℕ) (ps : List MediaPath)
    (y m : ℕ) :
    m ∈ monthsOf dateOf ps y ↔
      ∃ p ∈ ps, (dateOf p).1 = y ∧ (dateOf p).2 = m := by
  simp only [monthsOf, List.mem_dedup, List.mem_map, List.mem_filter,
    beq_iff_eq]
  constructor
  · rintro ⟨p, ⟨hp, hy⟩, hm⟩
    exact ⟨p, hp, hy, hm⟩
  · rintro ⟨p, hp, hy, hm⟩
    exact ⟨p, ⟨hp, hy⟩, hm⟩

/-- Claim C6 (amended): `createFolders` creates a year/month directory
under BOTH `Photos/` and `Videos/` exactly for the (year, month) pairs
that have at least one surviving record of ANY kind — the record's kind is
never consulted, so a month directory of kind `k` exists iff some record
(of whatever kind) has that capture year and month. -/
theorem createFolders_month_dirs (dateOf : MediaPath → ℕ × ℕ)
    (ps : List MediaPath) (k : DirKind) (y : ℕ) (nm : String) :
    Dir.monthDir k y nm ∈ createFolders dateOf ps ↔
      ∃ p ∈ ps, (dateOf p).1 = y ∧ monthName (dateOf p).2 = nm := by
  rw [createFolders, List.mem_append]
  constructor
  · rintro (h | h)
    · rcases List.mem_cons.1 h with h | h
      · exact absurd h (by simp)
      · rw [List.mem_singleton] at h
        exact absurd h (by simp)
    · obtain ⟨hy, m, hm, hnm⟩ :=
        (monthDir_mem_yearBlock dateOf ps k y nm _).1 h
      obtain ⟨p, hp, hpy, hpm⟩ := (mem_monthsOf dateOf ps y m).1 hm
      exact ⟨p, hp, hpy, by rw [hpm]; exact hnm⟩
  · rintro ⟨p, hp, hy, hnm⟩
    refine Or.inr ((monthDir_mem_yearBlock dateOf ps k y nm _).2 ?_)
    refine ⟨?_, (dateOf p).2, (mem_monthsOf dateOf ps y _).2 ⟨p, hp, hy, rfl⟩, hnm⟩
    rw [mem_sortNat, mem_yearsOf]
    exact ⟨p, hp, hy⟩

/-- Claim C6 (counterexample): a working set holding a single photo dated
March 2023 and no video at all still gets the month directory
`Videos/2023/March` created — a (year, month, kind) combination with zero
surviving records of that kind. -/
theorem createFolders_kind_counterexample :
    (∀ p ∈ ([samplePhoto] : List MediaPath), isVideoExt p = false)
      ∧ Dir.monthDir DirKind.videos 2023 "March"
          ∈ createFolders (fun _ => (2023, 3)) [samplePhoto] := by
  decide

theorem removeDuplicateImages_deterministic_witness :
    (∀ p ∈ ([samplePhoto] : List MediaPath),
        (fun _ : MediaPath => flatHash) p
          = (fun q : MediaPath => if q = samplePhoto then flatHash else fullHash) p)
      ∧ removeDuplicateImages (fun _ => flatHash) 95 [samplePhoto]
          = removeDuplicateImages
              (fun q => if q = samplePhoto then flatHash else fullHash) 95
              [samplePhoto] :=
  ⟨by decide,
   removeDuplicateImages_deterministic (fun _ => flatHash)
     (fun q => if q = samplePhoto then flatHash else fullHash) 95
     [samplePhoto] (by decide)⟩

theorem removeDuplicateImages_keeps_first_witness :
    ((imageKeys [samplePhoto]).head? = some samplePhoto)
      ∧ samplePhoto ∈ removeDuplicateImages (fun _ => flatHash) 95 [samplePhoto] :=
  ⟨by decide,
   removeDuplicateImages_keeps_first (fun _ => flatHash) 95 [samplePhoto]
     samplePhoto (by decide)⟩
